import Mathlib

/-!
Verification of the agostle conversion core (package `converter`).

The Go source is shallowly embedded below:

* `goExt` models `filepath.Ext` (Unix separator);
* `fixCT`, `ExtContentType`, `GetConverter`, `FixContentType` come from
  `converter.go`;
* the FDF field-template machinery (`splitFdf`, `fieldParts`, `PdfFillFdf`) and
  the PDF assembly helpers (`PdfClean`, `PdfPageNum`, `PdfSplit`, `PdfMerge`)
  come from the pdf file of the same package.

Go strings are modelled as Lean `String` (byte strings whose bytes matter are
`List Nat`, one entry per byte, each between 0 and 255).  External binaries are
modelled as explicit function parameters: the model records, in the returned
outcome, whether and how the binary would have been invoked.
-/

set_option autoImplicit false

namespace Agostle

/-- One step of `filepath.Ext`'s backwards scan, over the reversed character
list of the file name: consume characters until a dot (return the accumulated
extension including the dot) or a separator or the beginning (no extension). -/
def extRevAux (acc : List Char) : List Char → Option (List Char)
  | [] => none
  | c :: rest =>
    if c = '.' then some ('.' :: acc)
    else if c = '/' then none
    else extRevAux (c :: acc) rest

/-- `filepath.Ext`: the suffix beginning at the final dot in the final
slash-separated element of the path; empty when there is no dot.  Dot and slash
are ASCII, so Go's byte-wise backwards scan coincides with this character-wise
scan on UTF-8 input. -/
def goExt (fileName : String) : String :=
  match extRevAux [] fileName.data.reverse with
  | some l => String.mk l
  | none => ""

/-- `fixCT` from converter.go: correct a small set of known-ambiguous declared
content-types.  The source guards the zip `switch` with `len(ext) > 3`, which
is implied by the three 5-byte cases, so the guard is folded into the cases. -/
def fixCT (contentType fileName : String) : String :=
  if contentType = "application/zip" ∨ contentType = "application/x-zip-compressed" then
    if goExt fileName = ".docx" then
      "application/vnd.openxmlformats-officedocument.wordprocessingml.document"
    else if goExt fileName = ".xlsx" then
      "application/vnd.openxmlformats-officedocument.spreadsheetml.sheet"
    else if goExt fileName = ".pptx" then
      "application/vnd.openxmlformats-officedocument.presentationml.presentation"
    else "application/zip"
  else if contentType = "application/x-rar-compressed" ∨ contentType = "application/x-rar" then
    "application/rar"
  else if contentType = "image/pdf" then "application/pdf"
  else contentType

/-- The `ExtContentType` map literal from converter.go (keys are the
extension without the leading dot). -/
def extContentTypeTable : List (String × String) :=
  [("doc", "application/vnd.ms-word"),
   ("docx", "application/vnd.openxmlformats-officedocument.wordprocessingml.document"),
   ("dotx", "application/vnd.openxmlformats-officedocument.wordprocessingml.template"),
   ("xls", "application/vnd.ms-excel"),
   ("xlsx", "application/vnd.openxmlformats-officedocument.spreadsheetml.sheet"),
   ("xltx", "application/vnd.openxmlformats-officedocument.spreadsheetml.template"),
   ("ppt", "application/vnd.ms-powerpoint"),
   ("pptx", "application/vnd.openxmlformats-officedocument.presentationml.presentation"),
   ("ppsx", "application/vnd.openxmlformats-officedocument.presentationml.slideshow"),
   ("potx", "application/vnd.openxmlformats-officedocument.presentationml.template"),
   ("odg", "application/vnd.oasis.opendocument.graphics"),
   ("otg", "application/vnd.oasis.opendocument.graphics-template"),
   ("otp", "application/vnd.oasis.opendocument.presentation-template"),
   ("odp", "application/vnd.oasis.opendocument.presentation"),
   ("odm", "application/vnd.oasis.opendocument.text-master"),
   ("odt", "application/vnd.oasis.opendocument.text"),
   ("oth", "application/vnd.oasis.opendocument.text-web"),
   ("ott", "application/vnd.oasis.opendocument.text-template"),
   ("ods", "application/vnd.oasis.spreadsheet"),
   ("ots", "application/vnd.oasis.spreadsheet-template"),
   ("odc", "application/vnd.oasis.chart"),
   ("odf", "application/vnd.oasis.formula"),
   ("odb", "application/vnd.oasis.database"),
   ("odi", "application/vnd.oasis.image"),
   ("txt", "text/plain"),
   ("msg", "application/x-ole-storage"),
   ("jpg", "image/jpeg"),
   ("jpeg", "image/jpeg"),
   ("gif", "image/gif"),
   ("png", "image/png")]

/-- The lookup `nct, ok := ExtContentType[ext[1:]]`. -/
def ExtContentType (ext : String) : Option String :=
  (extContentTypeTable.find? (fun p => p.1 == ext)).map (fun p => p.2)

/-- The converter variants of converter.go (`Converter` function values;
`textConverter cs` is `NewTextConverter(cs)`). -/
inductive Conv where
  | pdfToPdf
  | officeToPdf
  | textToPdf
  | textConverter (charset : String)
  | htmlToPdf
  | mailToPdfZip
  | mpRelatedToPdf
  | skip
  | imageToPdf
  deriving DecidableEq, Repr

/-- `strings.HasPrefix`. -/
def goHasPrefix (s pre : String) : Bool :=
  pre.data.isPrefixOf s.data

/-- The office/OpenDocument/StarOffice vendor test of `GetConverter`'s default
branch. -/
def isOfficeCT (ct : String) : Bool :=
  goHasPrefix ct "application/vnd.oasis." ||
  goHasPrefix ct "application/vnd.openxmlformats-officedocument." ||
  goHasPrefix ct "application/vnd.ms-word" ||
  goHasPrefix ct "application/vnd.ms-excel" ||
  goHasPrefix ct "application/vnd.ms-powerpoint" ||
  ct == "application/x-ole-storage" ||
  goHasPrefix ct "application/vnd.sun.xml." ||
  goHasPrefix ct "application/vnd.stardivision." ||
  goHasPrefix ct "application/x-star." ||
  ct == "application/msword"

/-- `strings.Index(contentType, "/")` followed by the `i > 0` check of
`GetConverter`: the major type `contentType[:i]` when the first slash exists at
a positive index, and `none` otherwise. -/
def majorOf (ct : String) : Option String :=
  match ct.data.findIdx? (fun c => c = '/') with
  | some i => if 0 < i then some (String.mk (ct.data.take i)) else none
  | none => none

/-- `GetConverter` from converter.go.  In the default branch, `audio` and
`video` set the converter to nil explicitly and every other unmatched major
type leaves it nil, so both are the final `none`. -/
def GetConverter (contentType : String) (mediaType : Option (List (String × String))) :
    Option Conv :=
  if contentType = "application/pdf" then some .pdfToPdf
  else if contentType = "application/rtf" then some .officeToPdf
  else if contentType = "text/plain" then
    match mediaType with
    | some params =>
      match (params.find? (fun p => p.1 == "charset")).map (fun p => p.2) with
      | some cs => if cs ≠ "" then some (.textConverter cs) else some .textToPdf
      | none => some .textToPdf
    | none => some .textToPdf
  else if contentType = "text/html" then some .htmlToPdf
  else if contentType = "message/rfc822" then some .mailToPdfZip
  else if contentType = "multipart/related" then some .mpRelatedToPdf
  else if contentType = "application/x-pkcs7-signature" then some .skip
  else if isOfficeCT contentType then some .officeToPdf
  else
    match majorOf contentType with
    | some m =>
      if m = "image" then some .imageToPdf
      else if m = "text" then some .textToPdf
      else none
    | none => none

/-- The two external lookups `FixContentType` consults: `mimemagic` sniffing
(a deterministic function of the content bytes; `none` models "no magic
pattern matched") and `mime.TypeByExtension` (a deterministic function of the
extension; `""` models "unknown extension"). -/
structure Sniffer where
  detect : List Nat → Option String
  typeByExt : String → String

/-- `mimemagic.Match(def, body)`: the sniffed type when a magic pattern
matches, the default otherwise. -/
def magicMatch (s : Sniffer) (deflt : String) (body : List Nat) : String :=
  match s.detect body with
  | some t => t
  | none => deflt

/-- The body of `FixContentType` after the initial `contentType = fixCT(...)`
reassignment (`ct1` is already `fixCT`-normalized).  The empty `switch` under
`if !useMagic` in the source has no effect and is omitted.  `GetConverter` is
called with a nil media-type map, as in the source. -/
def fixCore (s : Sniffer) (body : List Nat) (ct1 fileName : String) : String :=
  if (goExt fileName = ".pdf" ∧ ct1 ≠ "application/pdf") ∧ magicMatch s ct1 body ≠ "" then
    fixCT (magicMatch s ct1 body) fileName
  else if GetConverter ct1 none = none ∧ magicMatch s ct1 body ≠ "" then
    fixCT (magicMatch s ct1 body) fileName
  else if fileName ≠ "" ∧
      (ct1 = "" ∨ ct1 = "application/octet-stream" ∨ GetConverter ct1 none = none) ∧
      3 < (goExt fileName).utf8ByteSize then
    match ExtContentType ((goExt fileName).drop 1) with
    | some nct => fixCT nct fileName
    | none =>
      if s.typeByExt (goExt fileName) ≠ "" then fixCT (s.typeByExt (goExt fileName)) fileName
      else ct1
  else ct1

/-- `FixContentType` from converter.go: normalize the declared type, then use
magic sniffing when the file name claims `.pdf` but the type disagrees or when
no converter is registered, then fall back to the extension tables. -/
def FixContentType (s : Sniffer) (body : List Nat) (contentType fileName : String) : String :=
  fixCore s body (fixCT contentType fileName) fileName

/-! ## FDF field templates (`splitFdf`, `fieldParts`, `PdfFillFdf`) -/

/-- `fieldPartV = []byte("\n<<\n/V ()\n")`, the template marker denoting
"insert value here" (bytes of newline, `<`, `<`, newline, `/`, `V`, space,
`(`, `)`, newline). -/
def fieldPartV : List Nat := [10, 60, 60, 10, 47, 86, 32, 40, 41, 10]

/-- `bytes.Index(l, pat)`: the first position at which `pat` occurs as a
contiguous sub-sequence of `l`, if any. -/
def indexOfSub (pat : List Nat) : List Nat → Option Nat
  | [] => if pat.isEmpty then some 0 else none
  | c :: rest =>
    if pat.isPrefixOf (c :: rest) then some 0
    else (indexOfSub pat rest).map (fun i => i + 1)

/-- The `Parts` loop of `splitFdf`: cut the input at each leftmost occurrence
of `fieldPartV`, dropping the marker.  Each iteration removes at least
`len(fieldPartV)` bytes, so the input length is enough fuel for the source's
unbounded loop (`splitFdfPartsAux_fuel` below makes this precise). -/
def splitFdfPartsAux : Nat → List Nat → List (List Nat)
  | 0, fdf => [fdf]
  | fuel + 1, fdf =>
    match indexOfSub fieldPartV fdf with
    | none => [fdf]
    | some i => fdf.take i :: splitFdfPartsAux fuel (fdf.drop (i + fieldPartV.length))

/-- The number of cuts the `Parts` loop makes, with the same fuel discipline
as `splitFdfPartsAux`: the number of leftmost non-overlapping occurrences of
the template marker. -/
def countMarkerAux : Nat → List Nat → Nat
  | 0, _ => 0
  | fuel + 1, fdf =>
    match indexOfSub fieldPartV fdf with
    | none => 0
    | some i => countMarkerAux fuel (fdf.drop (i + fieldPartV.length)) + 1

/-- The number of template-marker occurrences `splitFdf` cuts at. -/
def countMarker (fdf : List Nat) : Nat := countMarkerAux fdf.length fdf

/-- `[]byte("/T (")`. -/
def tMark : List Nat := [47, 84, 32, 40]

/-- `[]byte(")\n>>")`. -/
def endMark : List Nat := [41, 10, 62, 62]

/-- The field-name extraction of `splitFdf`'s second loop on one part:
`i := bytes.Index(part, "/T (")`, `j := i + bytes.Index(part[i:], ")\n>>")`,
key `part[i+4 : j]`; skip the part when either marker is missing.  (The second
index is at least 4 because `")\n>>"` cannot begin inside `"/T ("`, so the Go
slice is well-formed and has length `j - i - 4`.) -/
def keyOf (part : List Nat) : Option (List Nat) :=
  match indexOfSub tMark part with
  | none => none
  | some i =>
    match indexOfSub endMark (part.drop i) with
    | none => none
    | some j => some ((part.drop (i + 4)).take (j - 4))

/-- The `fieldParts` record: template byte-segments, field names in source
order, and the field-name to current-value mapping (Go `map[string]string`,
modelled as an association list; keys are the raw name bytes, values are rune
sequences). -/
structure fieldParts where
  Parts : List (List Nat)
  Fields : List (List Nat)
  Values : List (List Nat × List Char)
  deriving DecidableEq, Repr

/-- Go map assignment `m[k] = v`: replace the binding when the key is present,
append it otherwise. -/
def mapAssign (m : List (List Nat × List Char)) (k : List Nat) (v : List Char) :
    List (List Nat × List Char) :=
  if (m.find? (fun p => p.1 == k)).isSome then
    m.map (fun p => if p.1 == k then (k, v) else p)
  else m ++ [(k, v)]

/-- Go map lookup `m[k]` (with the zero value `""` for a missing key applied
at use sites). -/
def mapGet (m : List (List Nat × List Char)) (k : List Nat) : Option (List Char) :=
  (m.find? (fun p => p.1 == k)).map (fun p => p.2)

/-- `splitFdf` from the source: cut `fdf` at the template markers, then walk
the parts once, collecting each part's field name (when present) into `Fields`
and seeding `Values[key] = ""`. -/
def splitFdf (fdf : List Nat) : fieldParts :=
  let parts := splitFdfPartsAux fdf.length fdf
  let fields := parts.filterMap keyOf
  { Parts := parts
    Fields := fields
    Values := fields.foldl (fun m k => mapAssign m k []) [] }

/-- The membership test `_, ok := fp.Values[key]` of `fieldParts.Set`. -/
def hasKey (fp : fieldParts) (key : List Nat) : Bool :=
  (fp.Values.find? (fun p => p.1 == key)).isSome

/-- The error text of `fieldParts.Set`: `"field " + key + " not exist"` (the
key bytes rendered back as a string). -/
def unknownFieldErr (key : List Nat) : String :=
  "field " ++ String.mk (key.map Char.ofNat) ++ " not exist"

/-- `fieldParts.Set`: fails with the distinct "unknown field" error when the
key is not part of the template, otherwise updates the value. -/
def fpSet (fp : fieldParts) (key : List Nat) (value : List Char) : Except String fieldParts :=
  if hasKey fp key then
    .ok { fp with Values := fp.Values.map (fun p => if p.1 == key then (key, value) else p) }
  else .error (unknownFieldErr key)

/-- `utf16.Encode([]rune(val))`: one code unit below `0x10000`, a surrogate
pair above.  Lean `Char` excludes surrogates and values above `0x10FFFF`, so
Go's replacement-character branch is unreachable here. -/
def utf16Units (val : List Char) : List Nat :=
  val.flatMap (fun ch =>
    if 0x10000 ≤ ch.toNat then
      [0xD800 + (ch.toNat - 0x10000) / 0x400, 0xDC00 + (ch.toNat - 0x10000) % 0x400]
    else [ch.toNat])

/-- The UTF-16BE byte serialization of one field value in
`fieldParts.WriteTo`: `byte(u >> 8)` then `byte(u & 0xff)` per unit. -/
def encodeVal (val : List Char) : List Nat :=
  (utf16Units val).flatMap (fun u => [u / 256, u % 256])

/-- The loop of `fieldParts.WriteTo` over all parts but the last, consuming
`Fields` by index: emit the part, then the value chunk for its field
(`fieldPartV` when the value is empty, otherwise `fpv1`, the BOM `0xfe 0xff`,
the UTF-16BE bytes and `fpv2`).  `none` models the index-out-of-range panic on
`fp.Fields[i]` when `Fields` is shorter than the loop. -/
def writeParts (values : List (List Nat × List Char)) :
    List (List Nat) → List (List Nat) → Option (List Nat)
  | [], _ => some []
  | part :: rest, fields =>
    match fields with
    | [] => none
    | f :: ftail =>
      let val := (mapGet values f).getD []
      let chunk :=
        if val = [] then fieldPartV
        else fieldPartV.take 8 ++ [254, 255] ++ encodeVal val ++ fieldPartV.drop 8
      match writeParts values rest ftail with
      | none => none
      | some tail => some (part ++ chunk ++ tail)

/-- `fieldParts.WriteTo` into a buffer: the loop over `Parts[0..len-2]`
followed by `fp.Parts[len(fp.Parts)-1]`; `none` models the panics on an empty
`Parts` (the final access) or a too-short `Fields` (inside the loop). -/
def fpWriteTo (fp : fieldParts) : Option (List Nat) :=
  match fp.Parts.getLast? with
  | none => none
  | some last =>
    match writeParts fp.Values fp.Parts.dropLast fp.Fields with
    | none => none
    | some body => some (body ++ last)

/-- Outcome of `PdfFillFdf`: `copied` is the pure file copy for empty values
(destination byte-identical to the source, no tool run); `failed` is an error
before the form-fill tool runs (no destination file is written); `filled`
means `pdftk ... fill_form - output destfn` was invoked with the serialized
form data on stdin. -/
inductive FillOutcome where
  | copied
  | failed (msg : String)
  | filled (formData : List Nat)
  deriving DecidableEq, Repr

/-- The `Set` loop of `PdfFillFdf` over the `values` map (Go map iteration
order is arbitrary; the list order stands for one such order). -/
def setAll (fp : fieldParts) : List (List Nat × List Char) → Except String fieldParts
  | [] => .ok fp
  | (k, v) :: rest =>
    match fpSet fp k v with
    | .error e => .error e
    | .ok fp2 => setAll fp2 rest

/-- `PdfFillFdf` given the dumped FDF bytes of the source PDF (`getFdf`
parses exactly `splitFdf fdf` on a cold or fresh cache): empty values copy the
file; otherwise each pair is applied via `Set` (returning its error, before
any tool invocation or destination write) and the serialized form feeds the
form-fill tool. -/
def PdfFillFdf (fdf : List Nat) (values : List (List Nat × List Char)) : FillOutcome :=
  if values.isEmpty then .copied
  else
    match setAll (splitFdf fdf) values with
    | .error e => .failed e
    | .ok fp2 =>
      match fpWriteTo fp2 with
      | none => .failed "index out of range"
      | some out => .filled out

/-! ## PdfClean and its memo -/

/-- The mutable state `PdfClean` touches: the files it can see (path to
content, content abstracted to a `Nat` identifier) and the `alreadyCleaned`
map (a set of keys: absolute paths and content hashes). -/
structure CleanWorld where
  files : List (String × Nat)
  memo : List String
  deriving DecidableEq, Repr

/-- The configuration and external collaborators of `PdfClean`: the working
directory `filepath.Abs` resolves against, availability of the two cleaning
binaries, the content transforms the three tools compute (`none` is a failed
invocation), and the content hash (`sha1` + base64 in the source, abstracted
to a function of the content). -/
structure CleanCfg where
  cwd : String
  havePdfClean : Bool
  haveMutool : Bool
  pdfcleanTool : Nat → Option Nat
  mutoolTool : Nat → Option Nat
  rewriteTool : Nat → Option Nat
  hashOf : Nat → String

/-- Result of one `PdfClean` call: the returned error, the final state, and
how many times a cleaning tool (the selected cleaner, or the `PdfRewrite`
fallback) was invoked during the call. -/
structure CleanResult where
  err : Option String
  world : CleanWorld
  toolRuns : Nat
  deriving DecidableEq, Repr

/-- Membership in the `alreadyCleaned` map. -/
def memoHas (memo : List String) (k : String) : Bool :=
  memo.any (fun x => x == k)

def lookupFile (w : CleanWorld) (fn : String) : Option Nat :=
  (w.files.find? (fun p => p.1 == fn)).map (fun p => p.2)

def setFile (w : CleanWorld) (fn : String) (c : Nat) : CleanWorld :=
  { w with files := (fn, c) :: w.files.filter (fun p => p.1 != fn) }

def removeFile (w : CleanWorld) (fn : String) : CleanWorld :=
  { w with files := w.files.filter (fun p => p.1 != fn) }

/-- `os.Rename(src, dst)`: fails when the source does not exist. -/
def renameFile (w : CleanWorld) (src dst : String) : Option CleanWorld :=
  match lookupFile w src with
  | none => none
  | some c => some (setFile (removeFile w src) dst c)

/-- `filepath.IsAbs` on Unix: the path begins with a slash. -/
def isAbs (fn : String) : Bool :=
  match fn.data with
  | c :: _ => c == '/'
  | [] => false

/-- `filepath.Abs`: join the working directory with a relative path (the real
working directory is itself absolute). -/
def absPath (cwd fn : String) : String :=
  if isAbs fn then fn else cwd ++ "/" ++ fn

/-- `getHash`: `""` when the file cannot be opened, the content hash
otherwise. -/
def getHash (cfg : CleanCfg) (w : CleanWorld) (fn : String) : String :=
  match lookupFile w fn with
  | none => ""
  | some c => cfg.hashOf c

/-- `isAlreadyCleaned`: absolutize, then look the path up in the memo, then
the content hash (a file that cannot be hashed is not considered cleaned). -/
def isAlreadyCleaned (cfg : CleanCfg) (w : CleanWorld) (fn0 : String) : Bool :=
  let fn := absPath cfg.cwd fn0
  if memoHas w.memo fn then true
  else if getHash cfg w fn = "" then false
  else memoHas w.memo (getHash cfg w fn)

/-- The lazily computed `pdfCleanStatus` (`pcNothing = -1`, `pcPdfClean = 1`,
`pcMutool = 2`, or-ed together when both binaries are found): its value is
determined by tool availability. -/
def pdfCleanStatusOf (cfg : CleanCfg) : Int :=
  if cfg.havePdfClean then (if cfg.haveMutool then 3 else 1)
  else if cfg.haveMutool then 2 else -1

/-- The memo update at the end of a successful `PdfClean`: reset the map when
it exceeds 1024 entries, then record the absolute path, and the content hash
when it is non-empty. -/
def markCleaned (cfg : CleanCfg) (w : CleanWorld) (fn : String) : CleanWorld :=
  let memo1 := if 1024 < w.memo.length then [] else w.memo
  let memo2 := fn :: memo1
  { w with memo := if getHash cfg w fn ≠ "" then getHash cfg w fn :: memo2 else memo2 }

/-- `PdfClean` from the source: absolutize, short-circuit via the memo,
otherwise run the selected cleaner (`pdfCleanStatus & pcPdfClean != 0` picks
pdfclean, else mutool; the test is parity since `pcPdfClean = 1`) into
`fn + "-cleaned.pdf"` — or, when neither binary exists, the `PdfRewrite`
round-trip — then rename the cleaned file over the original and record it in
the memo.  The encryption re-probe of the cleaned file only logs, so it is
omitted. -/
def PdfClean (cfg : CleanCfg) (w : CleanWorld) (fn0 : String) : CleanResult :=
  let fn := absPath cfg.cwd fn0
  if isAlreadyCleaned cfg w fn then { err := none, world := w, toolRuns := 0 }
  else if pdfCleanStatusOf cfg ≠ -1 then
    let tool := if pdfCleanStatusOf cfg % 2 = 1 then cfg.pdfcleanTool else cfg.mutoolTool
    match lookupFile w fn with
    | none => { err := some "clean: no such file", world := w, toolRuns := 1 }
    | some c =>
      match tool c with
      | none => { err := some "clean failed", world := w, toolRuns := 1 }
      | some c2 =>
        let w1 := setFile w (fn ++ "-cleaned.pdf") c2
        match renameFile w1 (fn ++ "-cleaned.pdf") fn with
        | none => { err := some "rename failed", world := w1, toolRuns := 1 }
        | some w2 => { err := none, world := markCleaned cfg w2 fn, toolRuns := 1 }
  else
    match lookupFile w fn with
    | none => { err := some "rewrite: no such file", world := w, toolRuns := 1 }
    | some c =>
      match cfg.rewriteTool c with
      | none => { err := some "rewrite failed", world := w, toolRuns := 1 }
      | some c2 =>
        let w1 := setFile w (fn ++ "-cleaned.pdf") c2
        match renameFile w1 (fn ++ "-cleaned.pdf") fn with
        | none => { err := some "rename failed", world := w1, toolRuns := 1 }
        | some w2 => { err := none, world := markCleaned cfg w2 fn, toolRuns := 1 }

/-! ## PdfPageNum, PdfSplit, PdfMerge -/

/-- Result of one `PdfPageNum` call, instrumented with how many times the
`pdfPageNum` probe and `PdfClean` were invoked. -/
structure PageNumOutcome where
  pages : Int
  err : Option String
  probeRuns : Nat
  cleanRuns : Nat
  deriving DecidableEq, Repr

/-- `PdfPageNum` from the source.  `probe1` and `probe2` are the outcomes
(pages, encrypted, error) of the first and — after the interposed `PdfClean`,
whose own error `cleanErr` is only logged — second `pdfPageNum` invocation on
the file; the second exists only when the first fails. -/
def PdfPageNum (probe1 probe2 : Int × Bool × Option String) (cleanErr : Option String) :
    PageNumOutcome :=
  if probe1.2.2 = none then
    { pages := probe1.1, err := none, probeRuns := 1, cleanRuns := 0 }
  else
    { pages := probe2.1, err := probe2.2.2, probeRuns := 2, cleanRuns := 1 }

/-- Outcome of `PdfSplit`: an error, the 1-page identity result (the input
path is returned as the only element; no directory is made, no file is
created, no tool is invoked), or the multi-page path that shells out to
`pdfseparate` (or `pdftk ... burst`) in a fresh split subdirectory. -/
inductive SplitOutcome where
  | failed (msg : String)
  | identity (path : String)
  | toolSplit (usePdfseparate : Bool) (srcfn : String)
  deriving DecidableEq, Repr

/-- `PdfSplit` from the source, up to the page-count dispatch.  `probePages`
and `probeErr` are what `PdfPageNum(srcfn)` reports.  The source's first
branch reads `if n, e := PdfPageNum(srcfn); err != nil` — testing the outer
named return `err`, which is still nil at that point, so the branch is dead
and `e` is discarded; it is kept here on the literally-nil value. -/
def PdfSplit (usePdfseparate : Bool) (probePages : Int) (probeErr : Option String)
    (srcfn : String) : SplitOutcome :=
  if (none : Option String).isSome then
    .failed ("cannot determine page number of " ++ srcfn)
  else if probePages = 0 then .failed ("0 pages in " ++ srcfn)
  else if probePages = 1 then .identity srcfn
  else .toolSplit usePdfseparate srcfn

/-- Outcome of `PdfMerge`: an error, the single-file `temp.LinkOrCopy`
(destination byte-identical to the source, no merge tool invoked), or the
multi-file path (`pdfunite` when available, falling back to
`pdftk ... cat output ...`). -/
inductive MergeOutcome where
  | failed (msg : String)
  | linkOrCopy (src : String)
  | toolMerge (usePdfunite : Bool) (files : List String)
  deriving DecidableEq, Repr

/-- `PdfMerge` from the source, keyed on the length of the file list exactly
as the two `len(filenames)` tests are. -/
def PdfMerge (usePdfunite : Bool) (filenames : List String) : MergeOutcome :=
  match filenames with
  | [] => .failed "filenames required!"
  | [fn] => .linkOrCopy fn
  | _ => .toolMerge usePdfunite filenames

/-- `temp.LinkOrCopy(src, dst)` on a file system: afterwards the destination
holds exactly the source bytes. -/
def LinkOrCopy (fs : String → Option (List Nat)) (src dst : String) :
    String → Option (List Nat) :=
  fun p => if p = dst then fs src else fs p

/-! ## Concrete fixtures for closed evaluations -/

/-- The bytes of an ASCII string. -/
def strBytes (s : String) : List Nat :=
  s.data.map Char.toNat

/-- A small dumped FDF with a single field named `a`. -/
def fdfSample : List Nat :=
  strBytes "%FDF-1.2\n/Fields [" ++ fieldPartV ++ strBytes "/T (a)\n>>]\ntrailer"

/-- A `PdfClean` configuration whose only available cleaner (pdfclean) always
fails. -/
def cleanCfgFail : CleanCfg :=
  { cwd := "/w", havePdfClean := true, haveMutool := false,
    pdfcleanTool := fun _ => none, mutoolTool := fun _ => none,
    rewriteTool := fun _ => none, hashOf := fun _ => "H" }

/-- A `PdfClean` configuration whose pdfclean succeeds. -/
def cleanCfgOk : CleanCfg :=
  { cleanCfgFail with pdfcleanTool := fun c => some (c + 1) }

/-- A world with a single PDF file and an empty memo. -/
def cleanW0 : CleanWorld :=
  { files := [("/a.pdf", 7)], memo := [] }

/-! ## Helper lemmas -/

theorem indexOfSub_fieldPartV_nil : indexOfSub fieldPartV [] = none := rfl

theorem splitFdfPartsAux_length (fuel : Nat) :
    ∀ fdf : List Nat, (splitFdfPartsAux fuel fdf).length = countMarkerAux fuel fdf + 1 := by
  induction fuel with
  | zero => intro fdf; rfl
  | succ n ih =>
    intro fdf
    simp only [splitFdfPartsAux, countMarkerAux]
    cases indexOfSub fieldPartV fdf with
    | none => rfl
    | some i => simp [ih]

/-- The input length is enough fuel for the cutting loop: any two sufficient
fuels agree, so `splitFdfPartsAux fdf.length fdf` is the loop's fixpoint. -/
theorem splitFdfPartsAux_fuel (a : Nat) :
    ∀ (fdf : List Nat) (b : Nat), fdf.length ≤ a → fdf.length ≤ b →
      splitFdfPartsAux a fdf = splitFdfPartsAux b fdf := by
  induction a with
  | zero =>
    intro fdf b ha _
    have hfdf : fdf = [] := List.length_eq_zero.mp (Nat.le_zero.mp ha)
    subst hfdf
    cases b with
    | zero => rfl
    | succ b => simp [splitFdfPartsAux, indexOfSub_fieldPartV_nil]
  | succ a ih =>
    intro fdf b ha hb
    cases b with
    | zero =>
      have hfdf : fdf = [] := List.length_eq_zero.mp (Nat.le_zero.mp hb)
      subst hfdf
      simp [splitFdfPartsAux, indexOfSub_fieldPartV_nil]
    | succ b =>
      simp only [splitFdfPartsAux]
      cases h : indexOfSub fieldPartV fdf with
      | none => rfl
      | some i =>
        have hne : fdf ≠ [] := by
          intro hn
          rw [hn, indexOfSub_fieldPartV_nil] at h
          exact Option.noConfusion h
        have hpos : 1 ≤ fdf.length := List.length_pos.mpr hne
        have hlen : (fdf.drop (i + fieldPartV.length)).length = fdf.length - (i + 10) := by
          simp [fieldPartV, List.length_drop]
        dsimp only
        rw [ih (fdf.drop (i + fieldPartV.length)) b (by omega) (by omega)]

theorem mem_getLast?_of_ne_nil {α : Type} (l : List α) (h : l ≠ []) :
    l.getLast?.isSome = true := by
  simpa using List.getLast?_isSome.mpr h

/-! ## C2 -/

/-- C2 counterexample: on the input consisting of the template marker alone,
`splitFdf` yields two `Parts` but zero `Fields`, so the claimed invariant
`len(Parts) = len(Fields) + 1` fails. -/
theorem splitFdf_invariant_counterexample :
    ¬ (splitFdf fieldPartV).Parts.length = (splitFdf fieldPartV).Fields.length + 1 := by
  decide

/-- C2 (amended): for every input byte sequence, `len(Parts)` equals the
number of template-marker occurrences plus one, `len(Fields) ≤ len(Parts)`
(the stronger `len(Parts) = len(Fields) + 1` can fail, since a part may
contain no field marker and the last part may contain one), and `Fields` is
exactly the in-order extraction of the field names found in the parts, so it
preserves the field order of the source form data. -/
theorem splitFdf_parts_fields (fdf : List Nat) :
    (splitFdf fdf).Parts.length = countMarker fdf + 1 ∧
    (splitFdf fdf).Fields.length ≤ (splitFdf fdf).Parts.length ∧
    (splitFdf fdf).Fields = (splitFdf fdf).Parts.filterMap keyOf := by
  refine ⟨?_, ?_, rfl⟩
  · simp [splitFdf, countMarker, splitFdfPartsAux_length]
  · exact List.length_filterMap_le keyOf _

/-! ## C10 -/

/-- C10: `splitFdf` always produces a non-empty `Parts` list — its length is
the number of template-marker occurrences plus one — so the final
`fp.Parts[len(fp.Parts)-1]` access in `fieldParts.WriteTo` (the
`Parts.getLast?` step of `fpWriteTo`) is in bounds on every template produced
by `splitFdf`. -/
theorem splitFdf_writeTo_inbounds (fdf : List Nat) :
    (splitFdf fdf).Parts.length = countMarker fdf + 1 ∧
    (splitFdf fdf).Parts.getLast?.isSome = true := by
  have hlen : (splitFdf fdf).Parts.length = countMarker fdf + 1 := by
    simp [splitFdf, countMarker, splitFdfPartsAux_length]
  refine ⟨hlen, mem_getLast?_of_ne_nil _ ?_⟩
  intro hnil
  rw [hnil] at hlen
  exact Nat.noConfusion hlen

/-! ## C6 -/

/-- C6: when the page-count probe reports exactly one page, `PdfSplit`
returns the identity outcome — exactly the input path, with no directory or
file created and no page-separation tool invoked. -/
theorem PdfSplit_one_page (usePdfseparate : Bool) (probeErr : Option String) (srcfn : String) :
    PdfSplit usePdfseparate 1 probeErr srcfn = .identity srcfn := rfl

/-! ## C7 -/

/-- C7: `PdfMerge` of a single-element list is the pure `temp.LinkOrCopy`
(after which the destination holds exactly the source bytes, no merge tool
invoked), and `PdfMerge` of the empty list is the "filenames required!"
error. -/
theorem PdfMerge_single_and_empty (usePdfunite : Bool) (f dst : String)
    (fs : String → Option (List Nat)) :
    PdfMerge usePdfunite [f] = .linkOrCopy f ∧
    LinkOrCopy fs f dst dst = fs f ∧
    PdfMerge usePdfunite [] = .failed "filenames required!" :=
  ⟨rfl, by simp [LinkOrCopy], rfl⟩

/-! ## C8 -/

/-- C8: `PdfPageNum` runs the probe once when the first probe succeeds, and
on a first-probe failure runs exactly one `PdfClean` pass and exactly one
retry; the probe never runs more than twice. -/
theorem PdfPageNum_probe_counts (probe1 probe2 : Int × Bool × Option String)
    (cleanErr : Option String) :
    (PdfPageNum probe1 probe2 cleanErr).probeRuns = (if probe1.2.2 = none then 1 else 2) ∧
    (PdfPageNum probe1 probe2 cleanErr).cleanRuns = (if probe1.2.2 = none then 0 else 1) ∧
    (PdfPageNum probe1 probe2 cleanErr).probeRuns ≤ 2 := by
  unfold PdfPageNum
  split_ifs <;> simp

/-! ## C1 -/

/-- C1 counterexample: `application/foobar` matches no exact case, no office
vendor rule, and its major type `application` is none of image/text/audio/
video — yet `GetConverter` returns nil (Unsupported), not the Office
converter.  The Office default exists only in the `OtherToPdf` variable used
by callers. -/
theorem GetConverter_unknown_counterexample :
    GetConverter "application/foobar" none = none := by decide

/-- C1 (amended): for every content-type matching none of `GetConverter`'s
exact cases and none of its office/OpenDocument/StarOffice vendor rules, and
whose major type is not image, text, audio or video, `GetConverter` returns
nil (the Unsupported result); the Office fallback is not applied by
`GetConverter`. -/
theorem GetConverter_unknown_default (ct : String) (mt : Option (List (String × String)))
    (h1 : ct ≠ "application/pdf") (h2 : ct ≠ "application/rtf") (h3 : ct ≠ "text/plain")
    (h4 : ct ≠ "text/html") (h5 : ct ≠ "message/rfc822") (h6 : ct ≠ "multipart/related")
    (h7 : ct ≠ "application/x-pkcs7-signature") (h8 : isOfficeCT ct = false)
    (h9 : majorOf ct ≠ some "image") (h10 : majorOf ct ≠ some "text")
    (h11 : majorOf ct ≠ some "audio") (h12 : majorOf ct ≠ some "video") :
    GetConverter ct mt = none := by
  unfold GetConverter
  rw [if_neg h1, if_neg h2, if_neg h3, if_neg h4, if_neg h5, if_neg h6, if_neg h7,
    if_neg (by simp [h8])]
  cases hM : majorOf ct with
  | none => rfl
  | some m =>
    rw [hM] at h9 h10
    dsimp only
    rw [if_neg (fun hm => h9 (by rw [hm])), if_neg (fun hm => h10 (by rw [hm]))]

/-- C1 witness: the amended theorem applied at `application/foobar`. -/
theorem GetConverter_unknown_default_witness :
    GetConverter "application/foobar" (some [("charset", "utf-8")]) = none :=
  GetConverter_unknown_default "application/foobar" (some [("charset", "utf-8")])
    (by decide) (by decide) (by decide) (by decide) (by decide) (by decide) (by decide)
    (by decide) (by decide) (by decide) (by decide) (by decide)

/-! ## C5 -/

theorem find_isSome_map_replace (m : List (List Nat × List Char)) (k0 k : List Nat)
    (v : List Char) :
    ((m.map (fun p => if p.1 == k0 then (k0, v) else p)).find? (fun p => p.1 == k)).isSome
      = ((m.find? (fun p => p.1 == k))).isSome := by
  induction m with
  | nil => rfl
  | cons p m ih =>
    rw [List.map_cons, List.find?_cons, List.find?_cons]
    by_cases h : (p.1 == k0) = true
    · rw [if_pos h]
      have hp : p.1 = k0 := eq_of_beq h
      dsimp only
      rw [hp]
      cases hk : (k0 == k) with
      | true => rfl
      | false =>
        simp only [Bool.cond_false]
        exact ih
    · rw [if_neg h]
      cases hk : (p.1 == k) with
      | true => rfl
      | false =>
        simp only [Bool.cond_false]
        exact ih

theorem hasKey_fpSet (fp : fieldParts) (k0 k : List Nat) (v : List Char) (fp2 : fieldParts)
    (h : fpSet fp k0 v = .ok fp2) : hasKey fp2 k = hasKey fp k := by
  unfold fpSet at h
  split_ifs at h with hk0
  cases h
  unfold hasKey
  exact find_isSome_map_replace fp.Values k0 k v

/-- Applying the `values` map via `Set` fails with the "unknown field" error
of some absent key, as soon as the iteration reaches one. -/
theorem setAll_unknown (vs : List (List Nat × List Char)) :
    ∀ fp : fieldParts, (∃ k v, (k, v) ∈ vs ∧ hasKey fp k = false) →
      ∃ k, hasKey fp k = false ∧ setAll fp vs = .error (unknownFieldErr k) := by
  induction vs with
  | nil =>
    intro fp h
    obtain ⟨k, v, hmem, _⟩ := h
    exact absurd hmem (List.not_mem_nil (k, v))
  | cons p rest ih =>
    rcases p with ⟨k1, v1⟩
    intro fp h
    obtain ⟨k, v, hmem, hk⟩ := h
    by_cases h0 : hasKey fp k1 = true
    · have hSet : fpSet fp k1 v1 = .ok { fp with
          Values := fp.Values.map (fun q => if q.1 == k1 then (k1, v1) else q) } := by
        unfold fpSet
        rw [if_pos h0]
      have hkeys : ∀ k2 : List Nat, hasKey { fp with
          Values := fp.Values.map (fun q => if q.1 == k1 then (k1, v1) else q) } k2
            = hasKey fp k2 :=
        fun k2 => hasKey_fpSet fp k1 k2 v1 _ hSet
      have hmem2 : (k, v) ∈ rest := by
        rcases List.mem_cons.mp hmem with heq | h2
        · exfalso
          have hkk : k = k1 := by
            have hfst := congrArg Prod.fst heq
            simpa using hfst
          rw [hkk, h0] at hk
          exact Bool.noConfusion hk
        · exact h2
      obtain ⟨k2, hk2, hrun⟩ := ih _ ⟨k, v, hmem2, by rw [hkeys k]; exact hk⟩
      refine ⟨k2, by rw [← hkeys k2]; exact hk2, ?_⟩
      simp only [setAll, hSet]
      exact hrun
    · have h0f : hasKey fp k1 = false := by simpa using h0
      refine ⟨k1, h0f, ?_⟩
      have hSet : fpSet fp k1 v1 = .error (unknownFieldErr k1) := by
        unfold fpSet
        rw [if_neg (by simp [h0f])]
      simp only [setAll, hSet]

/-- C5: for every non-empty values mapping containing a key that is not among
the template's field names, `PdfFillFdf` returns the distinct "unknown field"
error from `fieldParts.Set` — the `failed` outcome, under which the form-fill
tool is not invoked and no destination file is written. -/
theorem PdfFillFdf_unknown_field (fdf : List Nat) (values : List (List Nat × List Char))
    (hne : values ≠ [])
    (hbad : ∃ k v, (k, v) ∈ values ∧ hasKey (splitFdf fdf) k = false) :
    ∃ k, hasKey (splitFdf fdf) k = false ∧
      PdfFillFdf fdf values = .failed (unknownFieldErr k) := by
  obtain ⟨k, hk, hrun⟩ := setAll_unknown values (splitFdf fdf) hbad
  refine ⟨k, hk, ?_⟩
  unfold PdfFillFdf
  rw [if_neg (by simpa using hne), hrun]

/-- C5 witness: the theorem applied to a one-field template and a mapping
holding the unknown key `zz`. -/
theorem PdfFillFdf_unknown_field_witness :
    ∃ k, hasKey (splitFdf fdfSample) k = false ∧
      PdfFillFdf fdfSample [(strBytes "zz", [])] = .failed (unknownFieldErr k) :=
  PdfFillFdf_unknown_field fdfSample [(strBytes "zz", [])] (by decide)
    ⟨strBytes "zz", [], by decide, by decide⟩

/-! ## C9 -/

theorem extRevAux_no_dot (v : List Char) :
    ∀ acc rest : List Char, (∀ c ∈ v, c ≠ '.' ∧ c ≠ '/') →
      extRevAux acc (v ++ '.' :: rest) = some ('.' :: (v.reverse ++ acc)) := by
  induction v with
  | nil => intro acc rest _; simp [extRevAux]
  | cons c v ih =>
    intro acc rest h
    have hc := h c (by simp)
    simp only [List.cons_append, extRevAux, if_neg hc.1, if_neg hc.2, List.append_eq]
    rw [ih (c :: acc) rest (fun x hx => h x (by simp [hx]))]
    simp

theorem extRevAux_some_suffix (l : List Char) :
    ∀ acc out : List Char, extRevAux acc l = some out →
      ∃ v rest, l = v ++ '.' :: rest ∧ out = '.' :: (v.reverse ++ acc) := by
  induction l with
  | nil => intro acc out h; exact Option.noConfusion h
  | cons c l ih =>
    intro acc out h
    by_cases h1 : c = '.'
    · subst h1
      simp only [extRevAux, if_pos rfl] at h
      cases h
      exact ⟨[], l, rfl, by simp⟩
    · by_cases h2 : c = '/'
      · rw [extRevAux, if_neg h1, if_pos h2] at h
        exact Option.noConfusion h
      · rw [extRevAux, if_neg h1, if_neg h2] at h
        obtain ⟨v, rest, hl, hout⟩ := ih (c :: acc) out h
        exact ⟨c :: v, rest, by simp [hl], by simp [hout, List.append_assoc]⟩

/-- When the file name ends in a dot followed by dot-free, slash-free
characters, `filepath.Ext` returns exactly that suffix. -/
theorem goExt_of_suffix (fn : String) (w : List Char) (hw : ∀ c ∈ w, c ≠ '.' ∧ c ≠ '/')
    (h : ('.' :: w) <:+ fn.data) : goExt fn = String.mk ('.' :: w) := by
  obtain ⟨pre, hpre⟩ := h
  unfold goExt
  have hrev : fn.data.reverse = w.reverse ++ '.' :: pre.reverse := by
    rw [← hpre]
    simp
  rw [hrev, extRevAux_no_dot w.reverse [] pre.reverse
    (fun c hc => hw c (List.mem_reverse.mp hc))]
  simp

/-- A non-empty `filepath.Ext` result is a suffix of the file name. -/
theorem goExt_suffix (fn : String) (h : goExt fn ≠ "") : (goExt fn).data <:+ fn.data := by
  unfold goExt at h ⊢
  cases hx : extRevAux [] fn.data.reverse with
  | none => rw [hx] at h; exact absurd rfl h
  | some out =>
    dsimp only
    obtain ⟨v, rest, hl, hout⟩ := extRevAux_some_suffix _ _ _ hx
    refine ⟨rest.reverse, ?_⟩
    have hfn : fn.data = fn.data.reverse.reverse := by simp
    rw [hfn, hl, hout]
    simp

/-- C9: with a declared type of `application/zip` (or its
`x-zip-compressed` alias), a file name ending in `.docx`/`.xlsx`/`.pptx`
resolves via `fixCT` to the corresponding Office-XML canonical content-type,
and every other file name resolves to plain `application/zip`. -/
theorem fixCT_zip_office (ct fn : String)
    (hct : ct = "application/zip" ∨ ct = "application/x-zip-compressed") :
    (".docx".data <:+ fn.data →
      fixCT ct fn = "application/vnd.openxmlformats-officedocument.wordprocessingml.document") ∧
    (".xlsx".data <:+ fn.data →
      fixCT ct fn = "application/vnd.openxmlformats-officedocument.spreadsheetml.sheet") ∧
    (".pptx".data <:+ fn.data →
      fixCT ct fn = "application/vnd.openxmlformats-officedocument.presentationml.presentation") ∧
    (¬ ".docx".data <:+ fn.data → ¬ ".xlsx".data <:+ fn.data → ¬ ".pptx".data <:+ fn.data →
      fixCT ct fn = "application/zip") := by
  have hdocx : ".docx".data <:+ fn.data → goExt fn = ".docx" := fun h =>
    goExt_of_suffix fn "docx".data (by decide) h
  have hxlsx : ".xlsx".data <:+ fn.data → goExt fn = ".xlsx" := fun h =>
    goExt_of_suffix fn "xlsx".data (by decide) h
  have hpptx : ".pptx".data <:+ fn.data → goExt fn = ".pptx" := fun h =>
    goExt_of_suffix fn "pptx".data (by decide) h
  refine ⟨fun h => ?_, fun h => ?_, fun h => ?_, fun h1 h2 h3 => ?_⟩
  · unfold fixCT
    rw [if_pos hct, if_pos (hdocx h)]
  · unfold fixCT
    rw [if_pos hct, if_neg (by rw [hxlsx h]; decide), if_pos (hxlsx h)]
  · unfold fixCT
    rw [if_pos hct, if_neg (by rw [hpptx h]; decide), if_neg (by rw [hpptx h]; decide),
      if_pos (hpptx h)]
  · have g1 : goExt fn ≠ ".docx" := by
      intro hg
      apply h1
      have hsfx := goExt_suffix fn (by rw [hg]; decide)
      rw [hg] at hsfx
      exact hsfx
    have g2 : goExt fn ≠ ".xlsx" := by
      intro hg
      apply h2
      have hsfx := goExt_suffix fn (by rw [hg]; decide)
      rw [hg] at hsfx
      exact hsfx
    have g3 : goExt fn ≠ ".pptx" := by
      intro hg
      apply h3
      have hsfx := goExt_suffix fn (by rw [hg]; decide)
      rw [hg] at hsfx
      exact hsfx
    unfold fixCT
    rw [if_pos hct, if_neg g1, if_neg g2, if_neg g3]

/-- C9 witness: the theorem applied to concrete file names under both zip
aliases. -/
theorem fixCT_zip_office_witness :
    fixCT "application/zip" "a.docx" =
      "application/vnd.openxmlformats-officedocument.wordprocessingml.document" ∧
    fixCT "application/x-zip-compressed" "b.bin" = "application/zip" := by
  constructor
  · exact (fixCT_zip_office "application/zip" "a.docx" (Or.inl rfl)).1 (by decide)
  · exact (fixCT_zip_office "application/x-zip-compressed" "b.bin" (Or.inr rfl)).2.2.2
      (by decide) (by decide) (by decide)

/-! ## C4 -/

theorem absPath_of_isAbs (cwd fn : String) (h : isAbs fn = true) : absPath cwd fn = fn := by
  unfold absPath
  rw [if_pos h]

theorem absPath_isAbs (cwd fn : String) (h : isAbs cwd = true) :
    isAbs (absPath cwd fn) = true := by
  unfold absPath
  split_ifs with h1
  · exact h1
  · unfold isAbs at h ⊢
    cases hc : cwd.data with
    | nil => rw [hc] at h; exact Bool.noConfusion h
    | cons a t =>
      rw [hc] at h
      rw [String.data_append, String.data_append, hc, List.cons_append]
      exact h

theorem memoHas_markCleaned (cfg : CleanCfg) (w : CleanWorld) (fn : String) :
    memoHas (markCleaned cfg w fn).memo fn = true := by
  unfold markCleaned memoHas
  split_ifs <;> simp [List.any_cons]

theorem PdfClean_already (cfg : CleanCfg) (w : CleanWorld) (fn : String)
    (h : isAlreadyCleaned cfg w (absPath cfg.cwd fn) = true) :
    PdfClean cfg w fn = { err := none, world := w, toolRuns := 0 } := by
  unfold PdfClean
  rw [if_pos h]

theorem isAlreadyCleaned_marked (cfg : CleanCfg) (w : CleanWorld) (a : String)
    (habs : absPath cfg.cwd a = a) :
    isAlreadyCleaned cfg (markCleaned cfg w a) a = true := by
  unfold isAlreadyCleaned
  dsimp only
  rw [habs, memoHas_markCleaned]
  rfl

/-- A first `PdfClean` call that returns nil and did not short-circuit ends in
a `markCleaned` world: the absolute path is recorded in the memo. -/
theorem PdfClean_success_world (cfg : CleanCfg) (w : CleanWorld) (fn : String)
    (hA : isAlreadyCleaned cfg w (absPath cfg.cwd fn) = false)
    (h1 : (PdfClean cfg w fn).err = none) :
    ∃ w2, (PdfClean cfg w fn).world = markCleaned cfg w2 (absPath cfg.cwd fn) := by
  unfold PdfClean at h1 ⊢
  rw [if_neg (by simp [hA])] at h1 ⊢
  by_cases hS : pdfCleanStatusOf cfg ≠ -1
  · rw [if_pos hS] at h1 ⊢
    dsimp only at h1 ⊢
    generalize hf : lookupFile w (absPath cfg.cwd fn) = lf at h1 ⊢
    cases lf with
    | none => simp at h1
    | some c =>
      dsimp only at h1 ⊢
      generalize ht : (if pdfCleanStatusOf cfg % 2 = 1 then cfg.pdfcleanTool
          else cfg.mutoolTool) c = tc at h1 ⊢
      cases tc with
      | none => simp at h1
      | some c2 =>
        dsimp only at h1 ⊢
        generalize hr : renameFile (setFile w (absPath cfg.cwd fn ++ "-cleaned.pdf") c2)
            (absPath cfg.cwd fn ++ "-cleaned.pdf") (absPath cfg.cwd fn) = rn at h1 ⊢
        cases rn with
        | none => simp at h1
        | some w2 => exact ⟨w2, rfl⟩
  · rw [if_neg hS] at h1 ⊢
    generalize hf : lookupFile w (absPath cfg.cwd fn) = lf at h1 ⊢
    cases lf with
    | none => simp at h1
    | some c =>
      dsimp only at h1 ⊢
      generalize ht : cfg.rewriteTool c = tc at h1 ⊢
      cases tc with
      | none => simp at h1
      | some c2 =>
        dsimp only at h1 ⊢
        generalize hr : renameFile (setFile w (absPath cfg.cwd fn ++ "-cleaned.pdf") c2)
            (absPath cfg.cwd fn ++ "-cleaned.pdf") (absPath cfg.cwd fn) = rn at h1 ⊢
        cases rn with
        | none => simp at h1
        | some w2 => exact ⟨w2, rfl⟩

/-- C4 counterexample: with the configured cleaner failing, the first
`PdfClean` call errors without recording anything in the memo, so the second
call invokes the clean tool again (two invocations in total) and does not
return nil — the claim's unconditional "at most once, second call returns nil"
fails. -/
theorem PdfClean_twice_counterexample :
    (PdfClean cleanCfgFail cleanW0 "/a.pdf").toolRuns = 1 ∧
    (PdfClean cleanCfgFail (PdfClean cleanCfgFail cleanW0 "/a.pdf").world "/a.pdf").toolRuns
      = 1 ∧
    (PdfClean cleanCfgFail (PdfClean cleanCfgFail cleanW0 "/a.pdf").world "/a.pdf").err
      ≠ none := by
  decide

/-- C4 (amended): when the first `PdfClean` call on a path succeeds (and the
working directory is absolute, as a real one is), the second call in
succession finds the path in the memo and returns nil immediately, invoking no
clean tool and leaving the state unchanged — so across the two calls the
clean tool (or rewrite fallback) runs at most once. -/
theorem PdfClean_twice_memo (cfg : CleanCfg) (w : CleanWorld) (fn : String)
    (hcwd : isAbs cfg.cwd = true) (h1 : (PdfClean cfg w fn).err = none) :
    PdfClean cfg (PdfClean cfg w fn).world fn =
      { err := none, world := (PdfClean cfg w fn).world, toolRuns := 0 } := by
  have hidem : absPath cfg.cwd (absPath cfg.cwd fn) = absPath cfg.cwd fn :=
    absPath_of_isAbs cfg.cwd (absPath cfg.cwd fn) (absPath_isAbs cfg.cwd fn hcwd)
  by_cases hA : isAlreadyCleaned cfg w (absPath cfg.cwd fn) = true
  · rw [PdfClean_already cfg w fn hA]
    exact PdfClean_already cfg w fn hA
  · obtain ⟨w2, hw2⟩ :=
      PdfClean_success_world cfg w fn (by simpa using hA) h1
    rw [hw2]
    exact PdfClean_already cfg (markCleaned cfg w2 (absPath cfg.cwd fn)) fn
      (isAlreadyCleaned_marked cfg w2 (absPath cfg.cwd fn) hidem)

/-- C4 witness: the amended theorem applied to a succeeding cleaner on a
concrete world. -/
theorem PdfClean_twice_memo_witness :
    PdfClean cleanCfgOk (PdfClean cleanCfgOk cleanW0 "/a.pdf").world "/a.pdf" =
      { err := none, world := (PdfClean cleanCfgOk cleanW0 "/a.pdf").world, toolRuns := 0 } :=
  PdfClean_twice_memo cleanCfgOk cleanW0 "/a.pdf" (by decide) (by decide)

/-! ## C3 -/

theorem fixCT_eq_self (ct fn : String)
    (h1 : ¬(ct = "application/zip" ∨ ct = "application/x-zip-compressed"))
    (h2 : ¬(ct = "application/x-rar-compressed" ∨ ct = "application/x-rar"))
    (h3 : ct ≠ "image/pdf") : fixCT ct fn = ct := by
  unfold fixCT
  rw [if_neg h1, if_neg h2, if_neg h3]

theorem fixCT_idem (ct fn : String) : fixCT (fixCT ct fn) fn = fixCT ct fn := by
  by_cases h1 : ct = "application/zip" ∨ ct = "application/x-zip-compressed"
  · by_cases e1 : goExt fn = ".docx"
    · have hv : fixCT ct fn =
          "application/vnd.openxmlformats-officedocument.wordprocessingml.document" := by
        unfold fixCT
        rw [if_pos h1, if_pos e1]
      rw [hv]
      exact fixCT_eq_self _ _ (by decide) (by decide) (by decide)
    · by_cases e2 : goExt fn = ".xlsx"
      · have hv : fixCT ct fn =
            "application/vnd.openxmlformats-officedocument.spreadsheetml.sheet" := by
          unfold fixCT
          rw [if_pos h1, if_neg e1, if_pos e2]
        rw [hv]
        exact fixCT_eq_self _ _ (by decide) (by decide) (by decide)
      · by_cases e3 : goExt fn = ".pptx"
        · have hv : fixCT ct fn =
              "application/vnd.openxmlformats-officedocument.presentationml.presentation" := by
            unfold fixCT
            rw [if_pos h1, if_neg e1, if_neg e2, if_pos e3]
          rw [hv]
          exact fixCT_eq_self _ _ (by decide) (by decide) (by decide)
        · have hv : fixCT ct fn = "application/zip" := by
            unfold fixCT
            rw [if_pos h1, if_neg e1, if_neg e2, if_neg e3]
          rw [hv]
          unfold fixCT
          rw [if_pos (Or.inl rfl), if_neg e1, if_neg e2, if_neg e3]
  · by_cases h2 : ct = "application/x-rar-compressed" ∨ ct = "application/x-rar"
    · have hv : fixCT ct fn = "application/rar" := by
        unfold fixCT
        rw [if_neg h1, if_pos h2]
      rw [hv]
      exact fixCT_eq_self _ _ (by decide) (by decide) (by decide)
    · by_cases h3 : ct = "image/pdf"
      · have hv : fixCT ct fn = "application/pdf" := by
          unfold fixCT
          rw [if_neg h1, if_neg h2, if_pos h3]
        rw [hv]
        exact fixCT_eq_self _ _ (by decide) (by decide) (by decide)
      · rw [fixCT_eq_self ct fn h1 h2 h3, fixCT_eq_self ct fn h1 h2 h3]

theorem fixCT_ne_empty (ct fn : String) (h : ct ≠ "") : fixCT ct fn ≠ "" := by
  unfold fixCT
  split_ifs <;> first | decide | exact h

/-- Every value of the `ExtContentType` table is already canonical: it is a
`fixCT` fixed point, has a registered converter, and is neither empty nor the
generic octet stream. -/
theorem extTable_good (k v fn : String) (h : ExtContentType k = some v) :
    fixCT v fn = v ∧ GetConverter v none ≠ none ∧ v ≠ "" ∧
      v ≠ "application/octet-stream" := by
  have hall : ∀ p ∈ extContentTypeTable,
      ¬(p.2 = "application/zip" ∨ p.2 = "application/x-zip-compressed") ∧
      ¬(p.2 = "application/x-rar-compressed" ∨ p.2 = "application/x-rar") ∧
      p.2 ≠ "image/pdf" ∧ GetConverter p.2 none ≠ none ∧ p.2 ≠ "" ∧
      p.2 ≠ "application/octet-stream" := by decide
  unfold ExtContentType at h
  cases hf : extContentTypeTable.find? (fun p => p.1 == k) with
  | none => rw [hf] at h; exact Option.noConfusion h
  | some p =>
    rw [hf] at h
    have hmem : p ∈ extContentTypeTable := List.mem_of_find?_eq_some hf
    have hv : p.2 = v := by
      cases h
      rfl
    obtain ⟨g1, g2, g3, g4, g5, g6⟩ := hall p hmem
    rw [hv] at g1 g2 g3 g4 g5 g6
    exact ⟨fixCT_eq_self v fn g1 g2 g3, g4, g5, g6⟩

theorem fixCore_detect_none (s : Sniffer) (body : List Nat) (z fn : String)
    (hd : s.detect body = none) :
    fixCore s body z fn =
      (if (goExt fn = ".pdf" ∧ z ≠ "application/pdf") ∧ z ≠ "" then fixCT z fn
       else if GetConverter z none = none ∧ z ≠ "" then fixCT z fn
       else if fn ≠ "" ∧
           (z = "" ∨ z = "application/octet-stream" ∨ GetConverter z none = none) ∧
           3 < (goExt fn).utf8ByteSize then
         match ExtContentType ((goExt fn).drop 1) with
         | some nct => fixCT nct fn
         | none =>
           if s.typeByExt (goExt fn) ≠ "" then fixCT (s.typeByExt (goExt fn)) fn else z
       else z) := by
  unfold fixCore magicMatch
  rw [hd]

theorem fixCore_detect_some (s : Sniffer) (body : List Nat) (z fn t : String)
    (hd : s.detect body = some t) :
    fixCore s body z fn =
      (if (goExt fn = ".pdf" ∧ z ≠ "application/pdf") ∧ t ≠ "" then fixCT t fn
       else if GetConverter z none = none ∧ t ≠ "" then fixCT t fn
       else if fn ≠ "" ∧
           (z = "" ∨ z = "application/octet-stream" ∨ GetConverter z none = none) ∧
           3 < (goExt fn).utf8ByteSize then
         match ExtContentType ((goExt fn).drop 1) with
         | some nct => fixCT nct fn
         | none =>
           if s.typeByExt (goExt fn) ≠ "" then fixCT (s.typeByExt (goExt fn)) fn else z
       else z) := by
  unfold fixCore magicMatch
  rw [hd]

/-- Every result of the body of `FixContentType` is a `fixCT` fixed point. -/
theorem fixCore_stable (s : Sniffer) (body : List Nat) (z fn : String)
    (hz : fixCT z fn = z) :
    fixCT (fixCore s body z fn) fn = fixCore s body z fn := by
  unfold fixCore
  by_cases hB1 : (goExt fn = ".pdf" ∧ z ≠ "application/pdf") ∧ magicMatch s z body ≠ ""
  · rw [if_pos hB1]
    exact fixCT_idem _ _
  · rw [if_neg hB1]
    by_cases hB2 : GetConverter z none = none ∧ magicMatch s z body ≠ ""
    · rw [if_pos hB2]
      exact fixCT_idem _ _
    · rw [if_neg hB2]
      by_cases hB3 : fn ≠ "" ∧
          (z = "" ∨ z = "application/octet-stream" ∨ GetConverter z none = none) ∧
          3 < (goExt fn).utf8ByteSize
      · rw [if_pos hB3]
        cases hE : ExtContentType ((goExt fn).drop 1) with
        | some nct =>
          dsimp only
          exact fixCT_idem _ _
        | none =>
          dsimp only
          by_cases hT : s.typeByExt (goExt fn) ≠ ""
          · rw [if_pos hT]
            exact fixCT_idem _ _
          · rw [if_neg hT]
            exact hz
      · rw [if_neg hB3]
        exact hz

/-- The body of `FixContentType` is idempotent on `fixCT` fixed points. -/
theorem fixCore_idem (s : Sniffer) (body : List Nat) (z fn : String)
    (hz : fixCT z fn = z) :
    fixCore s body (fixCore s body z fn) fn = fixCore s body z fn := by
  rcases hd : s.detect body with _ | t
  · -- no magic pattern matches: Match returns its default argument
    rw [fixCore_detect_none s body z fn hd]
    by_cases hB1 : (goExt fn = ".pdf" ∧ z ≠ "application/pdf") ∧ z ≠ ""
    · rw [if_pos hB1, hz, fixCore_detect_none s body z fn hd, if_pos hB1, hz]
    · rw [if_neg hB1]
      by_cases hB2 : GetConverter z none = none ∧ z ≠ ""
      · rw [if_pos hB2, hz, fixCore_detect_none s body z fn hd, if_neg hB1, if_pos hB2, hz]
      · rw [if_neg hB2]
        by_cases hB3 : fn ≠ "" ∧
            (z = "" ∨ z = "application/octet-stream" ∨ GetConverter z none = none) ∧
            3 < (goExt fn).utf8ByteSize
        · rw [if_pos hB3]
          cases hE : ExtContentType ((goExt fn).drop 1) with
          | some nct =>
            dsimp only
            obtain ⟨hfix, hconv, hne, hnoct⟩ := extTable_good _ nct fn hE
            rw [hfix]
            have hext : goExt fn ≠ ".pdf" := by
              intro hgE
              rw [hgE] at hE
              have hnone : ExtContentType ((".pdf" : String).drop 1) = none := by decide
              rw [hnone] at hE
              exact Option.noConfusion hE
            rw [fixCore_detect_none s body nct fn hd,
              if_neg (fun hc => hext hc.1.1),
              if_neg (fun hc => hconv hc.1)]
            rw [if_neg ?negE]
            case negE =>
              intro hc
              rcases hc.2.1 with h | h | h
              · exact hne h
              · exact hnoct h
              · exact hconv h
          | none =>
            dsimp only
            by_cases hT : s.typeByExt (goExt fn) ≠ ""
            · rw [if_pos hT]
              have hyne : fixCT (s.typeByExt (goExt fn)) fn ≠ "" :=
                fixCT_ne_empty _ fn hT
              rw [fixCore_detect_none s body (fixCT (s.typeByExt (goExt fn)) fn) fn hd]
              by_cases hB1' : (goExt fn = ".pdf" ∧
                  fixCT (s.typeByExt (goExt fn)) fn ≠ "application/pdf") ∧
                  fixCT (s.typeByExt (goExt fn)) fn ≠ ""
              · rw [if_pos hB1', fixCT_idem _ _]
              · rw [if_neg hB1']
                by_cases hB2' : GetConverter (fixCT (s.typeByExt (goExt fn)) fn) none = none ∧
                    fixCT (s.typeByExt (goExt fn)) fn ≠ ""
                · rw [if_pos hB2', fixCT_idem _ _]
                · rw [if_neg hB2']
                  by_cases hB3' : fn ≠ "" ∧
                      (fixCT (s.typeByExt (goExt fn)) fn = "" ∨
                       fixCT (s.typeByExt (goExt fn)) fn = "application/octet-stream" ∨
                       GetConverter (fixCT (s.typeByExt (goExt fn)) fn) none = none) ∧
                      3 < (goExt fn).utf8ByteSize
                  · rw [if_pos hB3', hE]
                    dsimp only
                    rw [if_pos hT]
                  · rw [if_neg hB3']
            · rw [if_neg hT, fixCore_detect_none s body z fn hd, if_neg hB1, if_neg hB2,
                if_pos hB3, hE]
              dsimp only
              rw [if_neg hT]
        · rw [if_neg hB3, fixCore_detect_none s body z fn hd, if_neg hB1, if_neg hB2,
            if_neg hB3]
  · -- the sniffer result t overrides the default in every Match call
    by_cases ht : t ≠ ""
    · rw [fixCore_detect_some s body z fn t hd]
      by_cases hA1 : goExt fn = ".pdf" ∧ z ≠ "application/pdf"
      · rw [if_pos ⟨hA1, ht⟩]
        have hqne : fixCT t fn ≠ "" := fixCT_ne_empty t fn ht
        rw [fixCore_detect_some s body (fixCT t fn) fn t hd]
        by_cases hpdf : fixCT t fn = "application/pdf"
        · rw [if_neg (fun hc => hc.1.2 hpdf),
            if_neg (fun hc => by rw [hpdf] at hc; exact absurd hc.1 (by decide))]
          rw [if_neg ?negP]
          case negP =>
            intro hc
            rcases hc.2.1 with h | h | h
            · exact hqne h
            · rw [hpdf] at h
              exact absurd h (by decide)
            · rw [hpdf] at h
              exact absurd h (by decide)
        · rw [if_pos ⟨⟨hA1.1, hpdf⟩, ht⟩]
      · rw [if_neg (fun hc => hA1 hc.1)]
        by_cases hB2 : GetConverter z none = none
        · rw [if_pos ⟨hB2, ht⟩]
          have hqne : fixCT t fn ≠ "" := fixCT_ne_empty t fn ht
          rw [fixCore_detect_some s body (fixCT t fn) fn t hd]
          by_cases hA1' : goExt fn = ".pdf" ∧ fixCT t fn ≠ "application/pdf"
          · rw [if_pos ⟨hA1', ht⟩]
          · rw [if_neg (fun hc => hA1' hc.1)]
            by_cases hc' : GetConverter (fixCT t fn) none = none
            · rw [if_pos ⟨hc', ht⟩]
            · rw [if_neg (fun hc => hc' hc.1)]
              rw [if_neg ?negQ]
              case negQ =>
                intro hc
                rcases hc.2.1 with h | h | h
                · exact hqne h
                · rw [h] at hc'
                  exact hc' (by decide)
                · exact hc' h
        · have hzne : ¬(z = "" ∨ z = "application/octet-stream" ∨
              GetConverter z none = none) := by
            rintro (h | h | h)
            · rw [h] at hB2
              exact hB2 (by decide)
            · rw [h] at hB2
              exact hB2 (by decide)
            · exact hB2 h
          rw [if_neg (fun hc => hB2 hc.1), if_neg (fun hc => hzne hc.2.1),
            fixCore_detect_some s body z fn t hd, if_neg (fun hc => hA1 hc.1),
            if_neg (fun hc => hB2 hc.1), if_neg (fun hc => hzne hc.2.1)]
    · have ht0 : t = "" := by simpa using ht
      subst ht0
      rw [fixCore_detect_some s body z fn "" hd,
        if_neg (fun hc => hc.2 rfl), if_neg (fun hc => hc.2 rfl)]
      by_cases hB3 : fn ≠ "" ∧
          (z = "" ∨ z = "application/octet-stream" ∨ GetConverter z none = none) ∧
          3 < (goExt fn).utf8ByteSize
      · rw [if_pos hB3]
        cases hE : ExtContentType ((goExt fn).drop 1) with
        | some nct =>
          dsimp only
          obtain ⟨hfix, hconv, hne, hnoct⟩ := extTable_good _ nct fn hE
          rw [hfix, fixCore_detect_some s body nct fn "" hd,
            if_neg (fun hc => hc.2 rfl), if_neg (fun hc => hc.2 rfl)]
          rw [if_neg ?negR]
          case negR =>
            intro hc
            rcases hc.2.1 with h | h | h
            · exact hne h
            · exact hnoct h
            · exact hconv h
        | none =>
          dsimp only
          by_cases hT : s.typeByExt (goExt fn) ≠ ""
          · rw [if_pos hT]
            rw [fixCore_detect_some s body (fixCT (s.typeByExt (goExt fn)) fn) fn "" hd,
              if_neg (fun hc => hc.2 rfl), if_neg (fun hc => hc.2 rfl)]
            by_cases hB3' : fn ≠ "" ∧
                (fixCT (s.typeByExt (goExt fn)) fn = "" ∨
                 fixCT (s.typeByExt (goExt fn)) fn = "application/octet-stream" ∨
                 GetConverter (fixCT (s.typeByExt (goExt fn)) fn) none = none) ∧
                3 < (goExt fn).utf8ByteSize
            · rw [if_pos hB3', hE]
              dsimp only
              rw [if_pos hT]
            · rw [if_neg hB3']
          · rw [if_neg hT, fixCore_detect_some s body z fn "" hd,
              if_neg (fun hc => hc.2 rfl), if_neg (fun hc => hc.2 rfl), if_pos hB3, hE]
            dsimp only
            rw [if_neg hT]
      · rw [if_neg hB3, fixCore_detect_some s body z fn "" hd,
          if_neg (fun hc => hc.2 rfl), if_neg (fun hc => hc.2 rfl), if_neg hB3]

/-- C3: content-type resolution is idempotent — applying `FixContentType` to
its own result (with the same bytes and file name, for any deterministic
sniffer and extension table) returns the same canonical content-type. -/
theorem FixContentType_idem (s : Sniffer) (body : List Nat) (contentType fileName : String) :
    FixContentType s body (FixContentType s body contentType fileName) fileName
      = FixContentType s body contentType fileName := by
  unfold FixContentType
  rw [fixCore_stable s body (fixCT contentType fileName) fileName
    (fixCT_idem contentType fileName)]
  exact fixCore_idem s body (fixCT contentType fileName) fileName
    (fixCT_idem contentType fileName)

end Agostle
